import Mathlib

/-!
# Verification of folly's `OpenSSLUtils.cpp`

A shallow embedding of the logic in `folly/io/async/ssl/OpenSSLUtils.cpp`:
peer-certificate SAN IP validation, TLS master-key / client-random
extraction, ALPN wire encoding, the cipher-name cache, and PEM subject-name
extraction.  External OpenSSL calls are modelled by explicit functions whose
behaviour follows the OpenSSL implementation they bind to; the environment
(certificate contents, socket addresses, file contents) is passed as explicit
data.  Bytes are `Nat`s; buffers are `List Nat`.
-/

namespace FollySSL

/-! ## Data model for `validatePeerCertNames`

A `GENERAL_NAME` entry of the subjectAltName extension carries a type tag and,
for IP entries, the raw address bytes (`d.iPAddress`).  Only the `GEN_IPADD`
tag is consulted by the code, so the tag is modelled as a two-valued type. -/

/-- The `type` field of a `GENERAL_NAME`: `GEN_IPADD` or anything else. -/
inductive GNType where
  | ipadd : GNType
  | other : GNType
deriving DecidableEq, Repr

/-- One subjectAltName entry: its type tag and the raw bytes of
`d.iPAddress` (meaningful only when the tag is `ipadd`). -/
structure GeneralName where
  gtype : GNType
  ip : List Nat
deriving DecidableEq, Repr

/-- A peer socket address as the code sees it: the `sa_family` discriminates
IPv4 (`sin_addr`, 4 bytes), IPv6 (`sin6_addr`, 16 bytes), or an unsupported
family carrying its numeric `sa_family` value. -/
inductive SockAddr where
  | v4 (sin_addr : List Nat) : SockAddr
  | v6 (sin6_addr : List Nat) : SockAddr
  | unsupported (family : Nat) : SockAddr
deriving DecidableEq, Repr

/-- `::memcmp(xs, ys, n) == 0`: the first `n` bytes of the two buffers agree. -/
def memcmpEq (xs ys : List Nat) (n : Nat) : Bool :=
  xs.take n == ys.take n

/-- The scan loop of `validatePeerCertNames` (OpenSSLUtils.cpp lines
121-140): walk the SAN entries in certificate order; for an entry tagged
`GEN_IPADD` whose raw length is 4 compare against the IPv4 peer (when
present), whose raw length is 16 compare against the IPv6 peer (when
present); return `true` at the first `memcmp` match, `false` when the list
is exhausted.  `addr4` / `addr6` are the possibly-null pointers set up from
the peer address. -/
def sanScan (addr4 addr6 : Option (List Nat)) : List GeneralName → Bool
  | [] => false
  | n :: rest =>
    if (addr4.isSome || addr6.isSome) && n.gtype == GNType.ipadd then
      if n.ip.length == 4 && addr4.isSome then
        if memcmpEq n.ip (addr4.getD []) 4 then true else sanScan addr4 addr6 rest
      else if n.ip.length == 16 && addr6.isSome then
        if memcmpEq n.ip (addr6.getD []) 16 then true else sanScan addr4 addr6 rest
      else
        sanScan addr4 addr6 rest
    else
      sanScan addr4 addr6 rest

/-- `OpenSSLUtils::validatePeerCertNames` (OpenSSLUtils.cpp lines 94-144).
`sanExt` is the result of `X509_get_ext_d2i(cert, NID_subject_alt_name, ...)`:
`none` when the certificate has no subjectAltName extension, otherwise the
entry list.  `addr` is the possibly-null `sockaddr*`.  `LOG(FATAL)` (the
unsupported-family abort) is modelled as `Except.error`; every normal return
is `Except.ok`. -/
def validatePeerCertNames (sanExt : Option (List GeneralName))
    (addr : Option SockAddr) : Except String Bool :=
  match sanExt with
  | none => Except.ok false
  | some altNames =>
    match addr with
    | some (SockAddr.unsupported _) => Except.error "Unsupported sockaddr family"
    | some (SockAddr.v4 a) => Except.ok (sanScan (some a) none altNames)
    | some (SockAddr.v6 a) => Except.ok (sanScan none (some a) altNames)
    | none => Except.ok (sanScan none none altNames)

/-- Spec-side match predicate for an IPv4 peer: the entry is tagged as an IP
address and its raw bytes equal the peer's 4 address bytes exactly. -/
def specMatchV4 (a4 : List Nat) (n : GeneralName) : Bool :=
  n.gtype == GNType.ipadd && n.ip == a4

/-- Spec-side match predicate for an IPv6 peer: the entry is tagged as an IP
address and its raw bytes equal the peer's 16 address bytes exactly. -/
def specMatchV6 (a6 : List Nat) (n : GeneralName) : Bool :=
  n.gtype == GNType.ipadd && n.ip == a6

/-! ### Lemmas about the SAN scan -/

theorem memcmpEq_of_lengths {xs ys : List Nat} {n : Nat}
    (hx : xs.length = n) (hy : ys.length = n) :
    memcmpEq xs ys n = (xs == ys) := by
  unfold memcmpEq
  rw [List.take_of_length_le (le_of_eq hx), List.take_of_length_le (le_of_eq hy)]

theorem sanScan_v4_eq_any (a4 : List Nat) (h4 : a4.length = 4)
    (ns : List GeneralName) :
    sanScan (some a4) none ns = ns.any (specMatchV4 a4) := by
  induction ns with
  | nil => rfl
  | cons n rest ih =>
    simp only [sanScan, List.any_cons, Option.isSome_some, Option.isSome_none,
      Bool.true_or, Bool.true_and, Bool.and_true, Bool.and_false, Option.getD_some]
    by_cases hg : n.gtype = GNType.ipadd
    · by_cases hl : n.ip.length = 4
      · simp only [memcmpEq_of_lengths hl h4]
        cases he : (n.ip == a4) with
        | true => simp [specMatchV4, hg, hl, he]
        | false => simp [specMatchV4, hg, hl, he, ih]
      · have he : (n.ip == a4) = false := by
          apply beq_false_of_ne
          intro hcon
          exact hl (hcon ▸ h4)
        simp [specMatchV4, hg, hl, he, ih]
    · simp [specMatchV4, hg, ih]

theorem sanScan_v6_eq_any (a6 : List Nat) (h6 : a6.length = 16)
    (ns : List GeneralName) :
    sanScan none (some a6) ns = ns.any (specMatchV6 a6) := by
  induction ns with
  | nil => rfl
  | cons n rest ih =>
    simp only [sanScan, List.any_cons, Option.isSome_some, Option.isSome_none,
      Bool.or_true, Bool.true_and, Bool.and_true, Bool.and_false, Option.getD_some]
    by_cases hg : n.gtype = GNType.ipadd
    · by_cases hl : n.ip.length = 16
      · have hne4 : n.ip.length ≠ 4 := by rw [hl]; decide
        simp only [memcmpEq_of_lengths hl h6]
        cases he : (n.ip == a6) with
        | true => simp [specMatchV6, hg, hl, hne4, he]
        | false => simp [specMatchV6, hg, hl, hne4, he, ih]
      · have he : (n.ip == a6) = false := by
          apply beq_false_of_ne
          intro hcon
          exact hl (hcon ▸ h6)
        simp [specMatchV6, hg, hl, he, ih]
    · simp [specMatchV6, hg, ih]

theorem sanScan_none_none (ns : List GeneralName) :
    sanScan none none ns = false := by
  induction ns with
  | nil => rfl
  | cons n rest ih =>
    simp [sanScan, ih]

/-! ## Claims about `validatePeerCertNames` -/

/-- C1: with a SAN extension present and an IPv4 or IPv6 peer, the scan walks
the entries in certificate order, compares only `GEN_IPADD` entries (4-byte
entries against an IPv4 peer, 16-byte entries against an IPv6 peer) by exact
byte equality, succeeds as soon as one entry matches — the result does not
depend on entries after a match — and fails when no entry matches; in
particular a certificate with SAN IPv4 entry 192.0.2.1 validates peer
192.0.2.1 and rejects peer 192.0.2.2. -/
theorem validatePeerCertNames_san_ip_matching
    (a4 a6 : List Nat) (h4 : a4.length = 4) (h6 : a6.length = 16) :
    (∀ ns, validatePeerCertNames (some ns) (some (SockAddr.v4 a4)) =
        Except.ok (ns.any (specMatchV4 a4))) ∧
    (∀ ns, validatePeerCertNames (some ns) (some (SockAddr.v6 a6)) =
        Except.ok (ns.any (specMatchV6 a6))) ∧
    (∀ pre n suf, specMatchV4 a4 n = true →
        validatePeerCertNames (some (pre ++ n :: suf)) (some (SockAddr.v4 a4)) =
          Except.ok true) ∧
    (∀ pre n suf, specMatchV6 a6 n = true →
        validatePeerCertNames (some (pre ++ n :: suf)) (some (SockAddr.v6 a6)) =
          Except.ok true) ∧
    (validatePeerCertNames (some [⟨GNType.ipadd, [192, 0, 2, 1]⟩])
        (some (SockAddr.v4 [192, 0, 2, 1])) = Except.ok true) ∧
    (validatePeerCertNames (some [⟨GNType.ipadd, [192, 0, 2, 1]⟩])
        (some (SockAddr.v4 [192, 0, 2, 2])) = Except.ok false) := by
  refine ⟨?_, ?_, ?_, ?_, by rfl, by rfl⟩
  · intro ns
    simp [validatePeerCertNames, sanScan_v4_eq_any a4 h4]
  · intro ns
    simp [validatePeerCertNames, sanScan_v6_eq_any a6 h6]
  · intro pre n suf hm
    simp [validatePeerCertNames, sanScan_v4_eq_any a4 h4, hm]
  · intro pre n suf hm
    simp [validatePeerCertNames, sanScan_v6_eq_any a6 h6, hm]

/-- Witness for C1 at concrete addresses. -/
theorem validatePeerCertNames_san_ip_matching_witness :
    validatePeerCertNames (some [⟨GNType.ipadd, [192, 0, 2, 1]⟩])
        (some (SockAddr.v4 [192, 0, 2, 1])) = Except.ok true :=
  (validatePeerCertNames_san_ip_matching [192, 0, 2, 1] (List.replicate 16 0)
    (by decide) (by decide)).2.2.2.2.1

/-- C2: a certificate with no subjectAltName extension fails validation
immediately — `false` for every peer address (null, IPv4, IPv6, or an
unsupported family), never an abort, and no Common Name fallback. -/
theorem validatePeerCertNames_no_san (addr : Option SockAddr) :
    validatePeerCertNames none addr = Except.ok false := rfl

/-- C3 (amended): with a SAN extension present, a non-null peer address of a
family other than IPv4/IPv6 hits `LOG(FATAL)`; without the extension the
function returns `false` before the family check; under the precondition
that the address is IPv4 or IPv6 every call returns a plain boolean — the
fatal branch is unreachable. -/
theorem validatePeerCertNames_unsupported_family :
    (∀ ns fam, validatePeerCertNames (some ns) (some (SockAddr.unsupported fam)) =
        Except.error "Unsupported sockaddr family") ∧
    (∀ fam, validatePeerCertNames none (some (SockAddr.unsupported fam)) =
        Except.ok false) ∧
    (∀ sanExt addr, ((∃ a, addr = SockAddr.v4 a) ∨ (∃ a, addr = SockAddr.v6 a)) →
        ∃ b, validatePeerCertNames sanExt (some addr) = Except.ok b) := by
  refine ⟨fun ns fam => rfl, fun fam => rfl, ?_⟩
  rintro sanExt addr (⟨a, rfl⟩ | ⟨a, rfl⟩) <;> cases sanExt <;>
    exact ⟨_, rfl⟩

/-- Witness for C3 (amended) at concrete inputs. -/
theorem validatePeerCertNames_unsupported_family_witness :
    validatePeerCertNames (some []) (some (SockAddr.unsupported 7)) =
        Except.error "Unsupported sockaddr family" ∧
    ∃ b, validatePeerCertNames (some []) (some (SockAddr.v4 [1, 2, 3, 4])) =
        Except.ok b :=
  ⟨validatePeerCertNames_unsupported_family.1 [] 7,
   validatePeerCertNames_unsupported_family.2.2 (some [])
     (SockAddr.v4 [1, 2, 3, 4]) (Or.inl ⟨[1, 2, 3, 4], rfl⟩)⟩

/-- Counterexample to C3 as stated: with a certificate that has no
subjectAltName extension, an unsupported-family peer address does NOT abort
— the function returns plain `false` before the family check is reached. -/
theorem validatePeerCertNames_unsupported_family_cex :
    validatePeerCertNames none (some (SockAddr.unsupported 5)) =
      Except.ok false := rfl

/-- C10: a null peer address pointer never aborts and never matches: both
`addr4` and `addr6` stay null, the unsupported-family check is skipped, no
SAN entry can compare equal, and the call returns `false`. -/
theorem validatePeerCertNames_null_addr (sanExt : Option (List GeneralName)) :
    validatePeerCertNames sanExt none = Except.ok false := by
  cases sanExt with
  | none => rfl
  | some ns => simp [validatePeerCertNames, sanScan_none_none]

/-! ## TLS master key and client random

`MutableByteRange` buffers are modelled by their size; a call returns the
`bool` result together with the bytes written into the buffer. -/

/-- An `SSL_SESSION`, projected to the field the code reads: the master key. -/
structure SSLSessionM where
  master_key : List Nat
deriving DecidableEq, Repr

/-- External call `SSL_SESSION_get_master_key(session, out, outlen)`,
modelled from OpenSSL's implementation: with `outlen = 0` it returns the
master-key length and writes nothing; otherwise it copies
`min outlen master_key_length` bytes into `out` and returns the number of
bytes copied.  The pair is (returned count, bytes written). -/
def SSL_SESSION_get_master_key (s : SSLSessionM) (outlen : Nat) :
    Nat × List Nat :=
  if outlen = 0 then (s.master_key.length, [])
  else (min outlen s.master_key.length,
        s.master_key.take (min outlen s.master_key.length))

/-- `OpenSSLUtils::getTLSMasterKey` (lines 41-48): query the size with a
null buffer; only when it equals `keyOut.size()` call again to fill the
buffer, returning that call's value converted to `bool`. -/
def getTLSMasterKey (s : SSLSessionM) (keyOutSize : Nat) : Bool × List Nat :=
  let size := (SSL_SESSION_get_master_key s 0).1
  if size = keyOutSize then
    let r := SSL_SESSION_get_master_key s keyOutSize
    (r.1 != 0, r.2)
  else (false, [])

/-- An `SSL` connection, projected to the field the code reads: the
`s3.client_random` array, a fixed `SSL3_RANDOM_SIZE`-byte field. -/
structure SSLM where
  client_random : List Nat
deriving DecidableEq, Repr

/-- `SSL3_RANDOM_SIZE`: the client random is a fixed 32-byte array. -/
def SSL3_RANDOM_SIZE : Nat := 32

/-- External call `SSL_get_client_random(ssl, out, outlen)`, modelled from
OpenSSL's implementation: with `outlen = 0` it returns
`sizeof(s3.client_random)`; otherwise it copies
`min outlen SSL3_RANDOM_SIZE` bytes and returns the number copied. -/
def SSL_get_client_random (s : SSLM) (outlen : Nat) : Nat × List Nat :=
  if outlen = 0 then (SSL3_RANDOM_SIZE, [])
  else (min outlen SSL3_RANDOM_SIZE,
        s.client_random.take (min outlen SSL3_RANDOM_SIZE))

/-- `OpenSSLUtils::getTLSClientRandom` (lines 64-71): same exact-size
pattern as `getTLSMasterKey`. -/
def getTLSClientRandom (s : SSLM) (randomOutSize : Nat) : Bool × List Nat :=
  let size := (SSL_get_client_random s 0).1
  if size = randomOutSize then
    let r := SSL_get_client_random s randomOutSize
    (r.1 != 0, r.2)
  else (false, [])

/-- C4 (amended): both getters return `false` (writing nothing) whenever the
buffer size differs from the engine-reported size; with equal sizes they
succeed and fill the buffer fully provided the size is nonzero — for a
zero-length master key even the size-0 buffer yields `false`, since the
engine call's return value converts to `false`.  The client random has the
fixed nonzero size `SSL3_RANDOM_SIZE`, so there equality alone suffices. -/
theorem getTLSMasterKey_size_contract :
    (∀ s n, n ≠ s.master_key.length → getTLSMasterKey s n = (false, [])) ∧
    (∀ s n, n = s.master_key.length → 0 < n →
        getTLSMasterKey s n = (true, s.master_key)) ∧
    (getTLSMasterKey ⟨[]⟩ 0 = (false, [])) ∧
    (∀ s n, s.client_random.length = SSL3_RANDOM_SIZE →
        (n ≠ SSL3_RANDOM_SIZE → getTLSClientRandom s n = (false, [])) ∧
        (n = SSL3_RANDOM_SIZE → getTLSClientRandom s n = (true, s.client_random))) := by
  refine ⟨?_, ?_, by rfl, ?_⟩
  · intro s n hne
    have hsize : (SSL_SESSION_get_master_key s 0).1 = s.master_key.length := rfl
    unfold getTLSMasterKey
    rw [hsize, if_neg (fun hc => hne hc.symm)]
  · intro s n heq hpos
    have hsize : (SSL_SESSION_get_master_key s 0).1 = s.master_key.length := rfl
    have hn0 : n ≠ 0 := Nat.pos_iff_ne_zero.mp hpos
    unfold getTLSMasterKey
    rw [hsize, if_pos heq.symm]
    unfold SSL_SESSION_get_master_key
    rw [if_neg hn0, heq, Nat.min_self]
    simp [List.take_of_length_le (le_refl s.master_key.length), ← heq, hn0]
  · intro s n h32
    constructor
    · intro hne
      have hsize : (SSL_get_client_random s 0).1 = SSL3_RANDOM_SIZE := rfl
      unfold getTLSClientRandom
      rw [hsize, if_neg (fun hc => hne hc.symm)]
    · intro heq
      subst heq
      have hsize : (SSL_get_client_random s 0).1 = SSL3_RANDOM_SIZE := rfl
      unfold getTLSClientRandom
      rw [hsize, if_pos rfl]
      unfold SSL_get_client_random
      rw [if_neg (by decide : SSL3_RANDOM_SIZE ≠ 0), Nat.min_self,
        List.take_of_length_le (le_of_eq h32)]
      rfl

/-- Witness for C4 (amended) at concrete inputs. -/
theorem getTLSMasterKey_size_contract_witness :
    getTLSMasterKey ⟨[9, 8, 7]⟩ 2 = (false, []) ∧
    getTLSMasterKey ⟨[9, 8, 7]⟩ 3 = (true, [9, 8, 7]) ∧
    getTLSClientRandom ⟨List.replicate 32 1⟩ 32 =
      (true, List.replicate 32 1) :=
  ⟨getTLSMasterKey_size_contract.1 ⟨[9, 8, 7]⟩ 2 (by decide),
   getTLSMasterKey_size_contract.2.1 ⟨[9, 8, 7]⟩ 3 (by decide) (by decide),
   (getTLSMasterKey_size_contract.2.2.2 ⟨List.replicate 32 1⟩ 32 (by decide)).2 rfl⟩

/-- Counterexample to C4 as stated: for a session whose master key is empty
the buffer size 0 equals the engine-reported size 0, yet `getTLSMasterKey`
returns `false` — the engine call's return value 0 converts to `false`, so
success does not hold exactly when the sizes are equal. -/
theorem getTLSMasterKey_zero_size_cex :
    (SSL_SESSION_get_master_key ⟨[]⟩ 0).1 = 0 ∧
    (getTLSMasterKey ⟨[]⟩ 0).1 = false :=
  ⟨rfl, rfl⟩

/-! ## ALPN encoding -/

/-- The length-check loop of `encodeALPNString` (lines 301-307): `true` iff
some protocol string exceeds 255 bytes
(`std::numeric_limits<uint8_t>::max()`), which makes the code throw. -/
def alpnLengthOverflow (supportedProtocols : List (List Nat)) : Bool :=
  supportedProtocols.any (fun proto => 255 < proto.length)

/-- The build loop of `encodeALPNString` (lines 312-315): for each protocol
in input order append one byte holding `static_cast<char>(proto.size())` —
the size truncated to a byte — then the protocol's raw bytes. -/
def alpnConcat (supportedProtocols : List (List Nat)) : List Nat :=
  supportedProtocols.foldl (fun acc proto => acc ++ proto.length % 256 :: proto) []

/-- `OpenSSLUtils::encodeALPNString` (lines 299-317): throw
`std::range_error` when some protocol exceeds 255 bytes, otherwise return
the length-prefixed concatenation. -/
def encodeALPNString (supportedProtocols : List (List Nat)) :
    Except String (List Nat) :=
  if alpnLengthOverflow supportedProtocols then
    Except.error "ALPN protocol string exceeds maximum length"
  else
    Except.ok (alpnConcat supportedProtocols)

/-- Modelled from the spec: the repository contains no ALPN decoder, and the
spec's round-trip property splits the wire bytes "on the length prefixes".
Read one length byte, take that many bytes as the next name, recurse on the
remainder; fail if fewer bytes remain than the prefix demands.  `fuel`
bounds the recursion. -/
def alpnSplit : Nat → List Nat → Option (List (List Nat))
  | _, [] => some []
  | 0, _ :: _ => none
  | fuel + 1, len :: rest =>
    if rest.length < len then none
    else (alpnSplit fuel (rest.drop len)).map (fun tl => rest.take len :: tl)

/-- Modelled from the spec: split a whole ALPN wire string on its length
prefixes.  The input length is enough fuel, since every step consumes at
least its prefix byte. -/
def alpnDecode (bs : List Nat) : Option (List (List Nat)) :=
  alpnSplit bs.length bs

theorem alpnConcat_foldl_acc (acc : List Nat) (ps : List (List Nat)) :
    ps.foldl (fun a proto => a ++ proto.length % 256 :: proto) acc =
      acc ++ (ps.map (fun p => p.length % 256 :: p)).flatten := by
  induction ps generalizing acc with
  | nil => simp
  | cons p ps ih =>
    rw [List.foldl_cons, ih]
    simp

theorem alpnConcat_eq_join (ps : List (List Nat)) :
    alpnConcat ps = (ps.map (fun p => p.length % 256 :: p)).flatten := by
  unfold alpnConcat
  rw [alpnConcat_foldl_acc]
  rfl

theorem alpnConcat_cons (p : List Nat) (ps : List (List Nat)) :
    alpnConcat (p :: ps) = (p.length % 256 :: p) ++ alpnConcat ps := by
  rw [alpnConcat_eq_join, alpnConcat_eq_join]
  simp

theorem alpnLengthOverflow_eq_false_iff (ps : List (List Nat)) :
    alpnLengthOverflow ps = false ↔ ∀ p ∈ ps, p.length ≤ 255 := by
  unfold alpnLengthOverflow
  rw [List.any_eq_false]
  constructor
  · intro h p hp
    have := h p hp
    simpa using this
  · intro h p hp
    simpa using h p hp

theorem alpnSplit_alpnConcat (ps : List (List Nat)) (fuel : Nat)
    (hb : ∀ p ∈ ps, p.length ≤ 255) (hf : (alpnConcat ps).length ≤ fuel) :
    alpnSplit fuel (alpnConcat ps) = some ps := by
  induction ps generalizing fuel with
  | nil =>
    cases fuel <;> rfl
  | cons p ps ih =>
    rw [alpnConcat_cons] at hf ⊢
    have hlen : p.length % 256 = p.length :=
      Nat.mod_eq_of_lt (Nat.lt_succ_of_le (hb p (List.mem_cons_self p ps)))
    cases fuel with
    | zero => simp at hf
    | succ f =>
      show alpnSplit (f + 1) (p.length % 256 :: (p ++ alpnConcat ps)) = _
      rw [show alpnSplit (f + 1) (p.length % 256 :: (p ++ alpnConcat ps)) =
        if (p ++ alpnConcat ps).length < p.length % 256 then none
        else (alpnSplit f ((p ++ alpnConcat ps).drop (p.length % 256))).map
          (fun tl => (p ++ alpnConcat ps).take (p.length % 256) :: tl) from rfl]
      rw [hlen]
      have hnlt : ¬ (p ++ alpnConcat ps).length < p.length := by
        rw [List.length_append]
        omega
      rw [if_neg hnlt, List.take_left, List.drop_left]
      have hf' : (alpnConcat ps).length ≤ f := by
        simp only [List.length_cons, List.length_append] at hf
        omega
      rw [ih f (fun q hq => hb q (List.mem_cons_of_mem p hq)) hf']
      rfl

theorem encodeALPNString_ok_of_bounded {ps : List (List Nat)}
    (hb : ∀ p ∈ ps, p.length ≤ 255) :
    encodeALPNString ps = Except.ok (alpnConcat ps) := by
  unfold encodeALPNString
  rw [(alpnLengthOverflow_eq_false_iff ps).mpr hb]
  rfl

theorem encodeALPNString_ok_inv {ps : List (List Nat)} {out : List Nat}
    (h : encodeALPNString ps = Except.ok out) :
    out = alpnConcat ps ∧ ∀ p ∈ ps, p.length ≤ 255 := by
  unfold encodeALPNString at h
  cases hov : alpnLengthOverflow ps with
  | true => rw [hov] at h; simp at h
  | false =>
    rw [hov] at h
    simp only [if_neg Bool.false_ne_true, Except.ok.injEq] at h
    exact ⟨h.symm, (alpnLengthOverflow_eq_false_iff ps).mp hov⟩

theorem alpnDecode_alpnConcat {ps : List (List Nat)}
    (hb : ∀ p ∈ ps, p.length ≤ 255) :
    alpnDecode (alpnConcat ps) = some ps :=
  alpnSplit_alpnConcat ps (alpnConcat ps).length hb (le_refl _)

/-! ## Claims about `encodeALPNString` -/

/-- C5: over protocol sequences whose names all fit in 255 bytes, the
encoding succeeds and splitting its output on the length prefixes
reconstructs exactly the original sequence in order; consequently the
encoding is injective on such inputs (any two sequences that encode to the
same wire bytes are equal). -/
theorem encodeALPNString_roundtrip (ps : List (List Nat))
    (hb : ∀ p ∈ ps, p.length ≤ 255) :
    (∃ out, encodeALPNString ps = Except.ok out ∧ alpnDecode out = some ps) ∧
    (∀ qs out, encodeALPNString ps = Except.ok out →
        encodeALPNString qs = Except.ok out → ps = qs) := by
  constructor
  · exact ⟨alpnConcat ps, encodeALPNString_ok_of_bounded hb,
      alpnDecode_alpnConcat hb⟩
  · intro qs out hp hq
    obtain ⟨rfl, hbp⟩ := encodeALPNString_ok_inv hp
    obtain ⟨hcq, hbq⟩ := encodeALPNString_ok_inv hq
    have h1 : alpnDecode (alpnConcat ps) = some ps := alpnDecode_alpnConcat hbp
    have h2 : alpnDecode (alpnConcat qs) = some qs := alpnDecode_alpnConcat hbq
    rw [← hcq] at h2
    rw [h1] at h2
    exact (Option.some.injEq _ _ ▸ h2)

/-- Witness for C5 at the concrete sequence ["h2"]. -/
theorem encodeALPNString_roundtrip_witness :
    alpnDecode [2, 104, 50] = some [[104, 50]] := by
  obtain ⟨out, h1, h2⟩ := (encodeALPNString_roundtrip [[104, 50]] (by decide)).1
  have h1' : (Except.ok [2, 104, 50] : Except String (List Nat)) =
      Except.ok out := h1
  injection h1' with h
  rw [← h] at h2
  exact h2

/-- C6: on sequences whose names all fit in 255 bytes the output is, for
each name in input order, one byte holding the name's length followed by the
name's raw bytes — no terminator, no count prefix; in particular
`encodeALPN(["h2"])` is exactly the bytes `[0x02, 'h', '2']`. -/
theorem encodeALPNString_format (ps : List (List Nat))
    (hb : ∀ p ∈ ps, p.length ≤ 255) :
    encodeALPNString ps =
      Except.ok ((ps.map (fun p => p.length :: p)).flatten) ∧
    encodeALPNString [[104, 50]] = Except.ok [2, 104, 50] := by
  constructor
  · rw [encodeALPNString_ok_of_bounded hb, alpnConcat_eq_join]
    have hmap : ps.map (fun p => p.length % 256 :: p) =
        ps.map (fun p => p.length :: p) :=
      List.map_congr_left (fun p hp => by
        rw [Nat.mod_eq_of_lt (Nat.lt_succ_of_le (hb p hp))])
    rw [hmap]
  · rfl

/-- Witness for C6 at the concrete sequence ["h2"]. -/
theorem encodeALPNString_format_witness :
    encodeALPNString [[104, 50]] = Except.ok [2, 104, 50] :=
  (encodeALPNString_format [[104, 50]] (by decide)).2

/-- C7: the encoder fails with the range error exactly when some protocol
string exceeds 255 bytes — never a silent truncation: every other input
yields the untruncated length-prefixed concatenation; in particular a
single 256-byte protocol is rejected. -/
theorem encodeALPNString_error_iff (ps : List (List Nat)) :
    ((∃ e, encodeALPNString ps = Except.error e) ↔ ∃ p ∈ ps, 255 < p.length) ∧
    encodeALPNString [List.replicate 256 97] =
      Except.error "ALPN protocol string exceeds maximum length" := by
  have hbig : alpnLengthOverflow [List.replicate 256 97] = true := by
    unfold alpnLengthOverflow
    rw [List.any_eq_true]
    refine ⟨List.replicate 256 97, List.mem_cons_self _ _, ?_⟩
    rw [decide_eq_true_eq, List.length_replicate]
    omega
  refine ⟨?_, ?_⟩
  case refine_2 =>
    unfold encodeALPNString
    rw [hbig]
    rfl
  unfold encodeALPNString
  cases hov : alpnLengthOverflow ps with
  | false =>
    simp only [Bool.false_eq_true, if_false]
    constructor
    · rintro ⟨e, he⟩
      exact absurd he (by simp)
    · rintro ⟨p, hp, hlen⟩
      have := (alpnLengthOverflow_eq_false_iff ps).mp hov p hp
      omega
  | true =>
    simp only [if_true]
    constructor
    · intro _
      unfold alpnLengthOverflow at hov
      rw [List.any_eq_true] at hov
      obtain ⟨p, hp, hlen⟩ := hov
      exact ⟨p, hp, by simpa using hlen⟩
    · intro _
      exact ⟨_, rfl⟩

/-! ## Cipher name cache -/

/-- One entry of the engine's supported-cipher list: the value of
`SSL_CIPHER_get_id` (32 bits or wider) and of `SSL_CIPHER_get_name`. -/
structure CipherEntry where
  id : Nat
  name : String
deriving DecidableEq, Repr

/-- The `unordered_map` assignment `ret[code] = name`, on an association
list: overwrite an existing binding for the key or append a fresh one. -/
def mapAssign (m : List (Nat × String)) (k : Nat) (v : String) :
    List (Nat × String) :=
  if m.any (fun p => p.1 == k) then
    m.map (fun p => if p.1 == k then (k, v) else p)
  else m ++ [(k, v)]

/-- Association-list lookup, the model of `unordered_map::find`. -/
def mapFind (m : List (Nat × String)) (k : Nat) : Option String :=
  (m.find? (fun p => p.1 == k)).map (fun p => p.2)

/-- `getOpenSSLCipherNames` (lines 146-178).  The transient `SSL_CTX`/`SSL`
construction and the engine's cipher list are external: `env = none` models
either construction failing, in which case the function returns the empty
map; otherwise walk the cipher list in order recording
`(id & 0xffff) -> name`. -/
def getOpenSSLCipherNames (env : Option (List CipherEntry)) :
    List (Nat × String) :=
  match env with
  | none => []
  | some ciphers =>
    ciphers.foldl (fun ret c => mapAssign ret (c.id % 65536) c.name) []

/-- `OpenSSLUtils::getCipherName` (lines 180-192): look the 16-bit code up
in the once-built table; the mapped name on a hit, the (static) empty
string on a miss. -/
def getCipherName (env : Option (List CipherEntry)) (cipherCode : Nat) :
    String :=
  match mapFind (getOpenSSLCipherNames env) cipherCode with
  | some name => name
  | none => ""

/-- C8: `getCipherName` never fails: a code missing from the built table
maps to the empty string, a failed table construction (empty table) maps
every code to the empty string, and a repeated call with the same code
returns the same result. -/
theorem getCipherName_total (env : Option (List CipherEntry))
    (cipherCode : Nat) :
    (mapFind (getOpenSSLCipherNames env) cipherCode = none →
        getCipherName env cipherCode = "") ∧
    (getCipherName none cipherCode = "") ∧
    (getCipherName env cipherCode = getCipherName env cipherCode) := by
  refine ⟨?_, rfl, rfl⟩
  intro h
  unfold getCipherName
  rw [h]

/-- Witness for C8: a two-cipher table misses the code 7. -/
theorem getCipherName_total_witness :
    mapFind (getOpenSSLCipherNames
        (some [⟨5, "AES128-SHA"⟩, ⟨70000, "AES256-SHA"⟩])) 7 = none ∧
    getCipherName (some [⟨5, "AES128-SHA"⟩, ⟨70000, "AES256-SHA"⟩]) 7 = "" :=
  ⟨rfl, (getCipherName_total
      (some [⟨5, "AES128-SHA"⟩, ⟨70000, "AES256-SHA"⟩]) 7).1 rfl⟩

/-! ## PEM subject-name extraction -/

/-- A decoded certificate, projected to the field the code extracts: its
subject distinguished name. -/
structure X509M where
  subject : String
deriving DecidableEq, Repr

/-- `forEachX509` (lines 324-335): repeatedly `PEM_read_bio_X509` and hand
each certificate to the callback until a read returns null.  The opened BIO
is modelled as the list of successive read results, `none` marking a failed
decode (or exhaustion); the collected certificates stop at the first
`none`. -/
def forEachX509 : List (Option X509M) → List X509M
  | [] => []
  | none :: _ => []
  | some c :: rest => c :: forEachX509 rest

/-- `getSubjectNamesFromBio` (lines 337-345): the subject name of each
decoded certificate (`X509_get_subject_name`, duplicated so it outlives the
certificate), in decode order. -/
def getSubjectNamesFromBio (b : List (Option X509M)) : List String :=
  (forEachX509 b).map X509M.subject

/-- `OpenSSLUtils::subjectNamesInPEMFile` (lines 347-355): `file = none`
models `BIO_new_file` failing to open the path, which throws
`std::runtime_error`; with the file open the scan never raises. -/
def subjectNamesInPEMFile (file : Option (List (Option X509M))) :
    Except String (List String) :=
  match file with
  | none =>
    Except.error "OpenSSLUtils::subjectNamesInPEMFile: failed to open file"
  | some bio => Except.ok (getSubjectNamesFromBio bio)

/-- C9: the call raises a hard error exactly when the file cannot be opened;
once open, a decode failure or exhaustion merely ends the scan, so a file
with zero PEM certificates — empty, or starting with undecodable bytes —
yields the empty sequence rather than an error. -/
theorem subjectNamesInPEMFile_error_iff (file : Option (List (Option X509M))) :
    ((∃ e, subjectNamesInPEMFile file = Except.error e) ↔ file = none) ∧
    subjectNamesInPEMFile (some []) = Except.ok [] ∧
    (∀ rest, subjectNamesInPEMFile (some (none :: rest)) = Except.ok []) := by
  refine ⟨?_, rfl, fun rest => rfl⟩
  cases file with
  | none => exact ⟨fun _ => rfl, fun _ => ⟨_, rfl⟩⟩
  | some bio =>
    constructor
    · rintro ⟨e, he⟩
      exact absurd he (by simp [subjectNamesInPEMFile])
    · intro h
      cases h

end FollySSL
